import Mathlib

/-!
Verification of the node-stream core (`core/src/nodes/node.rs`).

The Rust code is generic over a `StreamMuxer` trait; we embed the muxer as a
record of oracle functions over an explicit muxer state `σ` (the mutable
interior of the `Arc<TMuxer>` is modelled by threading `σ` through every
call).  Raw outbound-attempt handles are values of an abstract type `H`
(per-attempt mutable state, which Rust keeps behind `&mut`, lives inside the
muxer state, keyed by the handle).  Every node-stream operation additionally
returns the list of calls it made into the muxer, so that claims counting
`destroy_outbound` / `close` calls can be stated.
-/

universe u v w x y

/-- `Poll<Result<A, E>>` from the source, flattened into one three-way value. -/
inductive PollResult (α : Type u) (ε : Type v) where
  | ready_ok (a : α)
  | ready_err (e : ε)
  | pending
deriving Repr, DecidableEq

/-- A record of one call made by the node stream into the muxer. -/
inductive MuxCall (H : Type u) where
  | open_outbound (h : H)
  | poll_inbound
  | poll_outbound (h : H)
  | destroy_outbound (h : H)
  | is_remote_ack
  | close_muxer
deriving Repr, DecidableEq

/-- The `StreamMuxer` trait consumed by the core: each method is an oracle
function on the muxer state `σ`.  `H` is the raw outbound-attempt handle type,
`Sub` the raw substream type, `Err` the error type. -/
structure StreamMuxer (σ : Type u) (H : Type v) (Sub : Type w) (Err : Type x) where
  open_outbound : σ → H × σ
  poll_outbound : σ → H → PollResult Sub Err × σ
  poll_inbound : σ → PollResult Sub Err × σ
  destroy_outbound : σ → H → σ
  is_remote_acknowledged : σ → Bool
  close : σ → PollResult Unit Err × σ

/-- `muxing::SubstreamRef`: a raw substream wrapped together with a shared
reference to the muxer.  The `Arc` reference itself has no observable content
in this embedding, so the wrapper carries the raw substream. -/
structure SubstreamRef (Sub : Type w) where
  substream : Sub
deriving Repr, DecidableEq

/-- `muxing::substream_from_ref`. -/
def substream_from_ref {Sub : Type w} (s : Sub) : SubstreamRef Sub := ⟨s⟩

/-- `NodeEvent` from the source. -/
inductive NodeEvent (Sub : Type w) (U : Type y) where
  | inbound_substream (substream : SubstreamRef Sub)
  | outbound_substream (user_data : U) (substream : SubstreamRef Sub)
deriving Repr, DecidableEq

/-- `NodeStream`: the muxer (the `Arc<TMuxer>`, minus its mutable interior,
which is the threaded `σ`) plus the list of pending outbound substreams.  The
source uses a `SmallVec`; `push` appends at the back. -/
structure NodeStream (σ : Type u) (H : Type v) (Sub : Type w) (Err : Type x)
    (U : Type y) where
  muxer : StreamMuxer σ H Sub Err
  outbound_substreams : List (U × H)

/-- `Close`: the one-shot close operation, holding its own reference to the
muxer (`self.muxer.clone()` in the source). -/
structure Close (σ : Type u) (H : Type v) (Sub : Type w) (Err : Type x) where
  muxer : StreamMuxer σ H Sub Err

variable {σ : Type u} {H : Type v} {Sub : Type w} {Err : Type x} {U : Type y}

namespace NodeStream

/-- `NodeStream::new`. -/
def new (muxer : StreamMuxer σ H Sub Err) : NodeStream σ H Sub Err U :=
  { muxer := muxer, outbound_substreams := [] }

/-- `NodeStream::open_substream`: requests a raw attempt from the muxer and
appends `(user_data, raw)` to the pending list. -/
def open_substream (ns : NodeStream σ H Sub Err U) (s : σ) (user_data : U) :
    NodeStream σ H Sub Err U × σ × List (MuxCall H) :=
  let (raw, s') := ns.muxer.open_outbound s
  ({ ns with outbound_substreams := ns.outbound_substreams ++ [(user_data, raw)] },
   s', [MuxCall.open_outbound raw])

/-- `NodeStream::is_remote_acknowledged`: delegation to the muxer.  Both
`&self` receivers are read-only, so neither the stream nor the muxer state
changes. -/
def is_remote_acknowledged (ns : NodeStream σ H Sub Err U) (s : σ) :
    Bool × NodeStream σ H Sub Err U × σ × List (MuxCall H) :=
  (ns.muxer.is_remote_acknowledged s, ns, s, [MuxCall.is_remote_ack])

/-- The loop body of `cancel_outgoing` (and of `drop`): drain the pending list
front to back, destroying each raw attempt and collecting the user data. -/
def drain_destroy (M : StreamMuxer σ H Sub Err) (s : σ) (l : List (U × H)) :
    List U × σ × List (MuxCall H) :=
  match l with
  | [] => ([], s, [])
  | (user_data, outbound) :: rest =>
    let s' := M.destroy_outbound s outbound
    let (out, s'', tr) := drain_destroy M s' rest
    (user_data :: out, s'', MuxCall.destroy_outbound outbound :: tr)

/-- `NodeStream::cancel_outgoing`: destroys all pending outbound attempts and
returns the corresponding user data (the `drain(..)` iterates in list order). -/
def cancel_outgoing (ns : NodeStream σ H Sub Err U) (s : σ) :
    List U × NodeStream σ H Sub Err U × σ × List (MuxCall H) :=
  let (out, s', tr) := drain_destroy ns.muxer s ns.outbound_substreams
  (out, { ns with outbound_substreams := [] }, s', tr)

/-- `NodeStream::close`: cancels all pending outbound attempts, then hands out
a `Close` holding its own reference to the muxer. -/
def close (ns : NodeStream σ H Sub Err U) (s : σ) :
    Close σ H Sub Err × List U × σ × List (MuxCall H) :=
  let (substreams, _, s', tr) := ns.cancel_outgoing s
  let c : Close σ H Sub Err := { muxer := ns.muxer }
  (c, substreams, s', tr)

/-- `Vec::swap_remove` / `SmallVec::swap_remove`: removes the element at `n`,
moving the last element into its place.  `none` when `n` is out of bounds. -/
def swapRemove {α : Type u} (l : List α) (n : Nat) : Option (α × List α) :=
  match l[n]?, l.getLast? with
  | some x, some last => some (x, (l.set n last).dropLast)
  | _, _ => none

/-- Outcome of the outbound-polling loop inside `NodeStream::poll`. -/
inductive LoopOutcome (Sub : Type w) (Err : Type x) (U : Type y) where
  | success (user_data : U) (substream : Sub)
  | failure (e : Err)
  | nothing

/-- The loop `for n in (0..len).rev()` inside `NodeStream::poll`: each raw
attempt is `swap_remove`d, polled, and on `Pending` pushed back at the end;
on `Ready` the loop stops after destroying the raw attempt. -/
def poll_outbound_loop (M : StreamMuxer σ H Sub Err) (s : σ) (l : List (U × H)) :
    Nat → LoopOutcome Sub Err U × List (U × H) × σ × List (MuxCall H)
  | 0 => (LoopOutcome.nothing, l, s, [])
  | Nat.succ n =>
    match swapRemove l n with
    | none => (LoopOutcome.nothing, l, s, [])
    | some ((user_data, outbound), l') =>
      match M.poll_outbound s outbound with
      | (PollResult.ready_ok substream, s') =>
        let s'' := M.destroy_outbound s' outbound
        (LoopOutcome.success user_data substream, l', s'',
         [MuxCall.poll_outbound outbound, MuxCall.destroy_outbound outbound])
      | (PollResult.pending, s') =>
        let (res, l'', s'', tr) :=
          poll_outbound_loop M s' (l' ++ [(user_data, outbound)]) n
        (res, l'', s'', MuxCall.poll_outbound outbound :: tr)
      | (PollResult.ready_err e, s') =>
        let s'' := M.destroy_outbound s' outbound
        (LoopOutcome.failure e, l', s'',
         [MuxCall.poll_outbound outbound, MuxCall.destroy_outbound outbound])

/-- `NodeStream::poll`: polls the inbound side first; only if it is pending
does the outbound loop run. -/
def poll (ns : NodeStream σ H Sub Err U) (s : σ) :
    PollResult (NodeEvent Sub U) Err × NodeStream σ H Sub Err U × σ ×
      List (MuxCall H) :=
  match ns.muxer.poll_inbound s with
  | (PollResult.ready_ok substream, s') =>
    (PollResult.ready_ok
       (NodeEvent.inbound_substream (substream_from_ref substream)),
     ns, s', [MuxCall.poll_inbound])
  | (PollResult.ready_err err, s') =>
    (PollResult.ready_err err, ns, s', [MuxCall.poll_inbound])
  | (PollResult.pending, s') =>
    let (res, l', s'', tr) :=
      poll_outbound_loop ns.muxer s' ns.outbound_substreams
        ns.outbound_substreams.length
    match res with
    | LoopOutcome.success user_data substream =>
      (PollResult.ready_ok
         (NodeEvent.outbound_substream user_data (substream_from_ref substream)),
       { ns with outbound_substreams := l' }, s'', MuxCall.poll_inbound :: tr)
    | LoopOutcome.failure e =>
      (PollResult.ready_err e,
       { ns with outbound_substreams := l' }, s'', MuxCall.poll_inbound :: tr)
    | LoopOutcome.nothing =>
      (PollResult.pending,
       { ns with outbound_substreams := l' }, s'', MuxCall.poll_inbound :: tr)

/-- `Drop for NodeStream`: `for (_, outbound) in drain(..) { destroy }` — the
same drain loop as `cancel_outgoing`, with the user data discarded; nothing
else is called on the muxer. -/
def drop_stream (ns : NodeStream σ H Sub Err U) (s : σ) :
    σ × List (MuxCall H) :=
  let (_, s', tr) := drain_destroy ns.muxer s ns.outbound_substreams
  (s', tr)

end NodeStream

namespace Close

/-- `Future for Close`: delegates to the muxer's `close`. -/
def poll (c : Close σ H Sub Err) (s : σ) : PollResult Unit Err × σ :=
  match c.muxer.close s with
  | (PollResult.pending, s') => (PollResult.pending, s')
  | (PollResult.ready_ok _, s') => (PollResult.ready_ok (), s')
  | (PollResult.ready_err err, s') => (PollResult.ready_err err, s')

end Close

/-! ## Operation sequences

A small language of caller-side operations on a node stream, used to state
whole-lifetime claims (every raw handle destroyed exactly once). -/

/-- One caller-side operation on a live node stream.  `close` consumes the
stream and `drop` ends it, so those two appear only as terminators. -/
inductive Op (U : Type y) where
  | open_sub (user_data : U)
  | poll_step
  | cancel
  | remote_ack

namespace NodeStream

/-- Run a sequence of operations, threading the muxer state and concatenating
the muxer-call traces. -/
def run (ops : List (Op U)) (ns : NodeStream σ H Sub Err U) (s : σ) :
    NodeStream σ H Sub Err U × σ × List (MuxCall H) :=
  match ops with
  | [] => (ns, s, [])
  | op :: rest =>
    let (ns₁, s₁, tr₁) :=
      match op with
      | Op.open_sub u => ns.open_substream s u
      | Op.poll_step =>
        let (_, ns₁, s₁, tr₁) := ns.poll s
        (ns₁, s₁, tr₁)
      | Op.cancel =>
        let (_, ns₁, s₁, tr₁) := ns.cancel_outgoing s
        (ns₁, s₁, tr₁)
      | Op.remote_ack =>
        let (_, ns₁, s₁, tr₁) := ns.is_remote_acknowledged s
        (ns₁, s₁, tr₁)
    let (ns₂, s₂, tr₂) := run rest ns₁ s₁
    (ns₂, s₂, tr₁ ++ tr₂)

/-- Open one substream per element of `us`, in order (trace discarded). -/
def open_all (ns : NodeStream σ H Sub Err U) (s : σ) :
    List U → NodeStream σ H Sub Err U × σ
  | [] => (ns, s)
  | u :: rest =>
    let (ns₁, s₁, _) := ns.open_substream s u
    open_all ns₁ s₁ rest

end NodeStream

/-- A trace made up solely of `poll_outbound` calls (the calls the outbound
scan makes on attempts that are still pending). -/
def onlyPolls (tr : List (MuxCall H)) : Prop :=
  ∀ c ∈ tr, ∃ h, c = MuxCall.poll_outbound h

/-- Number of `open_outbound` calls that returned the handle `h` in a trace. -/
def countOpens [DecidableEq H] (tr : List (MuxCall H)) (h : H) : Nat :=
  tr.count (MuxCall.open_outbound h)

/-- Number of `destroy_outbound` calls on the handle `h` in a trace. -/
def countDestroys [DecidableEq H] (tr : List (MuxCall H)) (h : H) : Nat :=
  tr.count (MuxCall.destroy_outbound h)

/-- Number of occurrences of the handle `h` in the pending-outbound list. -/
def pendingCount [DecidableEq H] (ns : NodeStream σ H Sub Err U) (h : H) :
    Nat :=
  (ns.outbound_substreams.map Prod.snd).count h

/-! ## A concrete muxer

A small deterministic muxer used to exercise the concrete scenarios of the
specification: handles are minted as consecutive naturals; a queue of inbound
substreams, an optional inbound error, and association lists deciding which
outbound handles are ready or failing. -/

structure DemoState where
  next : Nat
  inbound : List Nat
  inbound_err : Option Nat
  ready_out : List (Nat × Nat)
  err_out : List (Nat × Nat)
deriving Repr, DecidableEq

def demoMuxer : StreamMuxer DemoState Nat Nat Nat where
  open_outbound := fun s => (s.next, { s with next := s.next + 1 })
  poll_outbound := fun s h =>
    match s.err_out.lookup h with
    | some e => (PollResult.ready_err e, s)
    | none =>
      match s.ready_out.lookup h with
      | some sub => (PollResult.ready_ok sub, s)
      | none => (PollResult.pending, s)
  poll_inbound := fun s =>
    match s.inbound_err with
    | some e => (PollResult.ready_err e, s)
    | none =>
      match s.inbound with
      | [] => (PollResult.pending, s)
      | sub :: rest => (PollResult.ready_ok sub, { s with inbound := rest })
  destroy_outbound := fun s _ => s
  is_remote_acknowledged := fun _ => true
  close := fun s => (PollResult.ready_ok (), s)

/-! ## Basic lemmas -/

theorem swapRemove_perm {α : Type u} :
    ∀ (l : List α) (n : Nat) (x : α) (l' : List α),
      NodeStream.swapRemove l n = some (x, l') → l.Perm (x :: l') := by
  intro l
  induction l with
  | nil =>
    intro n x l' h
    simp [NodeStream.swapRemove] at h
  | cons a t ih =>
    intro n x l' h
    cases n with
    | zero =>
      cases t with
      | nil =>
        simp [NodeStream.swapRemove, List.dropLast] at h
        obtain ⟨rfl, rfl⟩ := h
        exact List.Perm.refl _
      | cons b t' =>
        have hne : (b :: t') ≠ [] := by simp
        rw [NodeStream.swapRemove] at h
        simp [List.getLast?_cons_cons, List.getLast?_eq_getLast _ hne,
          List.set, List.dropLast] at h
        obtain ⟨rfl, rfl⟩ := h
        refine List.Perm.cons a ?_
        conv_lhs => rw [← List.dropLast_append_getLast hne]
        exact List.perm_append_singleton _ _
    | succ n =>
      cases t with
      | nil =>
        simp [NodeStream.swapRemove] at h
      | cons b t' =>
        have hne : (b :: t') ≠ [] := by simp
        rw [NodeStream.swapRemove] at h
        rw [List.getElem?_cons_succ, List.getLast?_cons_cons] at h
        by_cases hb : n < (b :: t').length
        · have hget : (b :: t')[n]? = some (b :: t')[n] := List.getElem?_eq_getElem hb
          rw [hget, List.getLast?_eq_getLast _ hne] at h
          simp only [List.set_cons_succ, Option.some.injEq, Prod.mk.injEq] at h
          obtain ⟨rfl, rfl⟩ := h
          have hset : (b :: t').set n ((b :: t').getLast hne) ≠ [] := by
            intro hc
            have hlen := congrArg List.length hc
            simp at hlen
          obtain ⟨c, w', hw⟩ := List.exists_cons_of_ne_nil hset
          have hih : (b :: t').Perm
              ((b :: t')[n] ::
                ((b :: t').set n ((b :: t').getLast hne)).dropLast) := by
            apply ih n
            rw [NodeStream.swapRemove, hget, List.getLast?_eq_getLast _ hne]
          have hgoal : (a :: (b :: t').set n ((b :: t').getLast hne)).dropLast
              = a :: ((b :: t').set n ((b :: t').getLast hne)).dropLast := by
            rw [hw]
            rfl
          rw [hgoal]
          exact (hih.cons a).trans (List.Perm.swap _ a _)
        · have hnone : (b :: t')[n]? = none :=
            List.getElem?_eq_none (Nat.le_of_not_lt hb)
          rw [hnone] at h
          simp at h

theorem drain_destroy_fst (M : StreamMuxer σ H Sub Err) :
    ∀ (l : List (U × H)) (s : σ),
      (NodeStream.drain_destroy M s l).1 = l.map Prod.fst := by
  intro l
  induction l with
  | nil => intro s; simp [NodeStream.drain_destroy]
  | cons p rest ih =>
    intro s
    obtain ⟨u, h0⟩ := p
    simp [NodeStream.drain_destroy, ih]

theorem drain_destroy_trace (M : StreamMuxer σ H Sub Err) :
    ∀ (l : List (U × H)) (s : σ),
      (NodeStream.drain_destroy M s l).2.2
        = l.map (fun p => MuxCall.destroy_outbound p.2) := by
  intro l
  induction l with
  | nil => intro s; simp [NodeStream.drain_destroy]
  | cons p rest ih =>
    intro s
    obtain ⟨u, h0⟩ := p
    simp [NodeStream.drain_destroy, ih]

theorem loop_nothing (M : StreamMuxer σ H Sub Err) :
    ∀ (n : Nat) (s : σ) (l l' : List (U × H)) (s' : σ) (tr : List (MuxCall H)),
      NodeStream.poll_outbound_loop M s l n
        = (NodeStream.LoopOutcome.nothing, l', s', tr) →
      l.Perm l' ∧ onlyPolls tr := by
  intro n
  induction n with
  | zero =>
    intro s l l' s' tr h
    simp [NodeStream.poll_outbound_loop] at h
    obtain ⟨rfl, rfl, rfl⟩ := h
    exact ⟨List.Perm.refl _, by intro c hc; simp at hc⟩
  | succ n ih =>
    intro s l l' s' tr h
    rw [NodeStream.poll_outbound_loop] at h
    cases hsw : NodeStream.swapRemove l n with
    | none =>
      rw [hsw] at h
      simp at h
      obtain ⟨rfl, rfl, rfl⟩ := h
      exact ⟨List.Perm.refl _, by intro c hc; simp at hc⟩
    | some pr =>
      obtain ⟨⟨u, h0⟩, l0⟩ := pr
      rcases hpo : M.poll_outbound s h0 with ⟨res0, s1⟩
      cases res0 with
      | ready_ok sub => simp [hsw, hpo] at h
      | ready_err e => simp [hsw, hpo] at h
      | pending =>
        rcases hrec : NodeStream.poll_outbound_loop M s1 (l0 ++ [(u, h0)]) n
          with ⟨res1, l1, s2, tr1⟩
        simp [hsw, hpo, hrec] at h
        obtain ⟨hres, rfl, rfl, rfl⟩ := h
        subst hres
        obtain ⟨hperm, honly⟩ := ih s1 (l0 ++ [(u, h0)]) l1 s2 tr1 hrec
        refine ⟨?_, ?_⟩
        · exact ((swapRemove_perm l n (u, h0) l0 hsw).trans
            (List.perm_append_singleton (u, h0) l0).symm).trans hperm
        · intro c hc
          rcases List.mem_cons.mp hc with hc2 | hc2
          · exact ⟨h0, hc2⟩
          · exact honly c hc2

theorem loop_success (M : StreamMuxer σ H Sub Err) :
    ∀ (n : Nat) (s : σ) (l : List (U × H)) (u : U) (sub : Sub)
      (l' : List (U × H)) (s' : σ) (tr : List (MuxCall H)),
      NodeStream.poll_outbound_loop M s l n
        = (NodeStream.LoopOutcome.success u sub, l', s', tr) →
      ∃ h0 tr₀,
        (u, h0) ∈ l ∧ l.Perm ((u, h0) :: l') ∧
        tr = tr₀ ++ [MuxCall.poll_outbound h0, MuxCall.destroy_outbound h0] ∧
        onlyPolls tr₀ := by
  intro n
  induction n with
  | zero =>
    intro s l u sub l' s' tr h
    simp [NodeStream.poll_outbound_loop] at h
  | succ n ih =>
    intro s l u sub l' s' tr h
    rw [NodeStream.poll_outbound_loop] at h
    cases hsw : NodeStream.swapRemove l n with
    | none =>
      rw [hsw] at h
      simp at h
    | some pr =>
      obtain ⟨⟨u1, h0⟩, l0⟩ := pr
      rcases hpo : M.poll_outbound s h0 with ⟨res0, s1⟩
      cases res0 with
      | ready_err e => simp [hsw, hpo] at h
      | ready_ok sub1 =>
        simp [hsw, hpo] at h
        obtain ⟨⟨rfl, rfl⟩, rfl, rfl, rfl⟩ := h
        have hperm := swapRemove_perm l n _ _ hsw
        exact ⟨h0, [], hperm.mem_iff.mpr (List.mem_cons_self _ _), hperm, by simp,
          by intro c hc; simp at hc⟩
      | pending =>
        rcases hrec : NodeStream.poll_outbound_loop M s1 (l0 ++ [(u1, h0)]) n
          with ⟨res1, l1, s2, tr1⟩
        simp [hsw, hpo, hrec] at h
        obtain ⟨hres, rfl, rfl, rfl⟩ := h
        subst hres
        obtain ⟨h2, tr₀, hmem, hperm, htr, honly⟩ :=
          ih s1 (l0 ++ [(u1, h0)]) u sub l1 s2 tr1 hrec
        have hl : l.Perm (l0 ++ [(u1, h0)]) :=
          (swapRemove_perm l n (u1, h0) l0 hsw).trans
            (List.perm_append_singleton (u1, h0) l0).symm
        refine ⟨h2, MuxCall.poll_outbound h0 :: tr₀, ?_, hl.trans hperm, ?_, ?_⟩
        · exact hl.symm.mem_iff.mp hmem
        · rw [htr]
          rfl
        · intro c hc
          rcases List.mem_cons.mp hc with hc2 | hc2
          · exact ⟨h0, hc2⟩
          · exact honly c hc2

theorem loop_failure (M : StreamMuxer σ H Sub Err) :
    ∀ (n : Nat) (s : σ) (l : List (U × H)) (e : Err)
      (l' : List (U × H)) (s' : σ) (tr : List (MuxCall H)),
      NodeStream.poll_outbound_loop M s l n
        = (NodeStream.LoopOutcome.failure e, l', s', tr) →
      ∃ u h0 tr₀,
        (u, h0) ∈ l ∧ l.Perm ((u, h0) :: l') ∧
        tr = tr₀ ++ [MuxCall.poll_outbound h0, MuxCall.destroy_outbound h0] ∧
        onlyPolls tr₀ := by
  intro n
  induction n with
  | zero =>
    intro s l e l' s' tr h
    simp [NodeStream.poll_outbound_loop] at h
  | succ n ih =>
    intro s l e l' s' tr h
    rw [NodeStream.poll_outbound_loop] at h
    cases hsw : NodeStream.swapRemove l n with
    | none =>
      rw [hsw] at h
      simp at h
    | some pr =>
      obtain ⟨⟨u1, h0⟩, l0⟩ := pr
      rcases hpo : M.poll_outbound s h0 with ⟨res0, s1⟩
      cases res0 with
      | ready_ok sub1 => simp [hsw, hpo] at h
      | ready_err e1 =>
        simp [hsw, hpo] at h
        obtain ⟨rfl, rfl, rfl, rfl⟩ := h
        have hperm := swapRemove_perm l n _ _ hsw
        exact ⟨u1, h0, [], hperm.mem_iff.mpr (List.mem_cons_self _ _), hperm,
          by simp, by intro c hc; simp at hc⟩
      | pending =>
        rcases hrec : NodeStream.poll_outbound_loop M s1 (l0 ++ [(u1, h0)]) n
          with ⟨res1, l1, s2, tr1⟩
        simp [hsw, hpo, hrec] at h
        obtain ⟨hres, rfl, rfl, rfl⟩ := h
        subst hres
        obtain ⟨u2, h2, tr₀, hmem, hperm, htr, honly⟩ :=
          ih s1 (l0 ++ [(u1, h0)]) e l1 s2 tr1 hrec
        have hl : l.Perm (l0 ++ [(u1, h0)]) :=
          (swapRemove_perm l n (u1, h0) l0 hsw).trans
            (List.perm_append_singleton (u1, h0) l0).symm
        refine ⟨u2, h2, MuxCall.poll_outbound h0 :: tr₀, ?_, hl.trans hperm, ?_, ?_⟩
        · exact hl.symm.mem_iff.mp hmem
        · rw [htr]
          rfl
        · intro c hc
          rcases List.mem_cons.mp hc with hc2 | hc2
          · exact ⟨h0, hc2⟩
          · exact honly c hc2

theorem onlyPolls_counts [DecidableEq H] {tr : List (MuxCall H)}
    (hp : onlyPolls tr) (x : H) :
    countDestroys tr x = 0 ∧ countOpens tr x = 0 := by
  constructor
  · rw [countDestroys, List.count_eq_zero]
    intro hc
    obtain ⟨h2, heq⟩ := hp _ hc
    simp at heq
  · rw [countOpens, List.count_eq_zero]
    intro hc
    obtain ⟨h2, heq⟩ := hp _ hc
    simp at heq

theorem count_destroy_map [DecidableEq H] (l : List (U × H)) (x : H) :
    (l.map fun p => MuxCall.destroy_outbound p.2).count (MuxCall.destroy_outbound x)
      = (l.map Prod.snd).count x := by
  induction l with
  | nil => rfl
  | cons p rest ih => simp [List.count_cons, ih]

theorem count_open_map_destroy [DecidableEq H] (l : List (U × H)) (x : H) :
    countOpens (l.map fun p => MuxCall.destroy_outbound p.2) x = 0 := by
  rw [countOpens, List.count_eq_zero]
  intro hc
  simp at hc

theorem loop_counts [DecidableEq H] (M : StreamMuxer σ H Sub Err)
    (n : Nat) (s : σ) (l : List (U × H)) (x : H) :
    countOpens (NodeStream.poll_outbound_loop M s l n).2.2.2 x = 0 ∧
    countDestroys (NodeStream.poll_outbound_loop M s l n).2.2.2 x
        + (((NodeStream.poll_outbound_loop M s l n).2.1).map Prod.snd).count x
      = (l.map Prod.snd).count x := by
  rcases hres : NodeStream.poll_outbound_loop M s l n with ⟨res, l', s', tr⟩
  cases res with
  | nothing =>
    obtain ⟨hperm, honly⟩ := loop_nothing M n s l l' s' tr hres
    obtain ⟨hd, ho⟩ := onlyPolls_counts honly x
    refine ⟨ho, ?_⟩
    rw [hd, ((hperm.map Prod.snd).count_eq x).symm]
    simp
  | success u sub =>
    obtain ⟨h0, tr₀, hmem, hperm, htr, honly⟩ := loop_success M n s l u sub l' s' tr hres
    obtain ⟨hd, ho⟩ := onlyPolls_counts honly x
    subst htr
    constructor
    · rw [countOpens, List.count_append]
      rw [countOpens] at ho
      simp [ho, List.count_cons]
    · rw [countDestroys, List.count_append]
      rw [countDestroys] at hd
      have hc := (hperm.map Prod.snd).count_eq x
      simp only [List.map_cons] at hc
      rw [hc, hd]
      rcases eq_or_ne h0 x with heq | hne
      · subst heq
        simp [List.count_cons]
        omega
      · simp [List.count_cons, hne]
  | failure e =>
    obtain ⟨u, h0, tr₀, hmem, hperm, htr, honly⟩ := loop_failure M n s l e l' s' tr hres
    obtain ⟨hd, ho⟩ := onlyPolls_counts honly x
    subst htr
    constructor
    · rw [countOpens, List.count_append]
      rw [countOpens] at ho
      simp [ho, List.count_cons]
    · rw [countDestroys, List.count_append]
      rw [countDestroys] at hd
      have hc := (hperm.map Prod.snd).count_eq x
      simp only [List.map_cons] at hc
      rw [hc, hd]
      rcases eq_or_ne h0 x with heq | hne
      · subst heq
        simp [List.count_cons]
        omega
      · simp [List.count_cons, hne]

theorem poll_eq_inbound_ready (ns : NodeStream σ H Sub Err U) (s : σ)
    (sub : Sub) (s₁ : σ)
    (hin : ns.muxer.poll_inbound s = (PollResult.ready_ok sub, s₁)) :
    ns.poll s
      = (PollResult.ready_ok
           (NodeEvent.inbound_substream (substream_from_ref sub)),
         ns, s₁, [MuxCall.poll_inbound]) := by
  simp [NodeStream.poll, hin]

theorem poll_eq_inbound_err (ns : NodeStream σ H Sub Err U) (s : σ)
    (e : Err) (s₁ : σ)
    (hin : ns.muxer.poll_inbound s = (PollResult.ready_err e, s₁)) :
    ns.poll s = (PollResult.ready_err e, ns, s₁, [MuxCall.poll_inbound]) := by
  simp [NodeStream.poll, hin]

theorem poll_eq_loop_success (ns : NodeStream σ H Sub Err U) (s : σ)
    (s₁ : σ) (u : U) (sub : Sub) (l' : List (U × H)) (s₂ : σ)
    (tr : List (MuxCall H))
    (hin : ns.muxer.poll_inbound s = (PollResult.pending, s₁))
    (hloop : NodeStream.poll_outbound_loop ns.muxer s₁ ns.outbound_substreams
        ns.outbound_substreams.length
      = (NodeStream.LoopOutcome.success u sub, l', s₂, tr)) :
    ns.poll s
      = (PollResult.ready_ok
           (NodeEvent.outbound_substream u (substream_from_ref sub)),
         { ns with outbound_substreams := l' }, s₂,
         MuxCall.poll_inbound :: tr) := by
  simp [NodeStream.poll, hin, hloop]

theorem poll_eq_loop_failure (ns : NodeStream σ H Sub Err U) (s : σ)
    (s₁ : σ) (e : Err) (l' : List (U × H)) (s₂ : σ) (tr : List (MuxCall H))
    (hin : ns.muxer.poll_inbound s = (PollResult.pending, s₁))
    (hloop : NodeStream.poll_outbound_loop ns.muxer s₁ ns.outbound_substreams
        ns.outbound_substreams.length
      = (NodeStream.LoopOutcome.failure e, l', s₂, tr)) :
    ns.poll s
      = (PollResult.ready_err e, { ns with outbound_substreams := l' }, s₂,
         MuxCall.poll_inbound :: tr) := by
  simp [NodeStream.poll, hin, hloop]

theorem poll_eq_loop_nothing (ns : NodeStream σ H Sub Err U) (s : σ)
    (s₁ : σ) (l' : List (U × H)) (s₂ : σ) (tr : List (MuxCall H))
    (hin : ns.muxer.poll_inbound s = (PollResult.pending, s₁))
    (hloop : NodeStream.poll_outbound_loop ns.muxer s₁ ns.outbound_substreams
        ns.outbound_substreams.length
      = (NodeStream.LoopOutcome.nothing, l', s₂, tr)) :
    ns.poll s
      = (PollResult.pending, { ns with outbound_substreams := l' }, s₂,
         MuxCall.poll_inbound :: tr) := by
  simp [NodeStream.poll, hin, hloop]

theorem open_step_counts [DecidableEq H] (ns : NodeStream σ H Sub Err U)
    (s : σ) (u : U) (x : H) :
    countOpens (ns.open_substream s u).2.2 x + pendingCount ns x
      = countDestroys (ns.open_substream s u).2.2 x
        + pendingCount (ns.open_substream s u).1 x := by
  rcases hop : ns.muxer.open_outbound s with ⟨raw, s'⟩
  simp [NodeStream.open_substream, hop, countOpens, countDestroys,
    pendingCount, List.count_cons, List.count_append]
  rcases eq_or_ne raw x with heq | hne
  · subst heq
    simp
    omega
  · simp [hne]

theorem poll_step_counts [DecidableEq H] (ns : NodeStream σ H Sub Err U)
    (s : σ) (x : H) :
    countOpens (ns.poll s).2.2.2 x + pendingCount ns x
      = countDestroys (ns.poll s).2.2.2 x + pendingCount (ns.poll s).2.1 x := by
  rcases hin : ns.muxer.poll_inbound s with ⟨r, s₁⟩
  cases r with
  | ready_ok sub =>
    rw [poll_eq_inbound_ready ns s sub s₁ hin]
    simp [countOpens, countDestroys, List.count_cons]
  | ready_err e =>
    rw [poll_eq_inbound_err ns s e s₁ hin]
    simp [countOpens, countDestroys, List.count_cons]
  | pending =>
    rcases hloop : NodeStream.poll_outbound_loop ns.muxer s₁
        ns.outbound_substreams ns.outbound_substreams.length
      with ⟨res, l', s₂, tr⟩
    obtain ⟨ho, hd⟩ := loop_counts ns.muxer ns.outbound_substreams.length s₁
      ns.outbound_substreams x
    rw [hloop] at ho hd
    simp only at ho hd
    cases res with
    | success u sub =>
      rw [poll_eq_loop_success ns s s₁ u sub l' s₂ tr hin hloop]
      simp only [countOpens, countDestroys, pendingCount, List.count_cons] at ho hd ⊢
      simp
      omega
    | failure e =>
      rw [poll_eq_loop_failure ns s s₁ e l' s₂ tr hin hloop]
      simp only [countOpens, countDestroys, pendingCount, List.count_cons] at ho hd ⊢
      simp
      omega
    | nothing =>
      rw [poll_eq_loop_nothing ns s s₁ l' s₂ tr hin hloop]
      simp only [countOpens, countDestroys, pendingCount, List.count_cons] at ho hd ⊢
      simp
      omega

theorem cancel_step_counts [DecidableEq H] (ns : NodeStream σ H Sub Err U)
    (s : σ) (x : H) :
    countOpens (ns.cancel_outgoing s).2.2.2 x + pendingCount ns x
      = countDestroys (ns.cancel_outgoing s).2.2.2 x
        + pendingCount (ns.cancel_outgoing s).2.1 x := by
  rcases hdr : NodeStream.drain_destroy ns.muxer s ns.outbound_substreams
    with ⟨out, s', tr⟩
  have htr := drain_destroy_trace ns.muxer ns.outbound_substreams s
  rw [hdr] at htr
  simp only at htr
  subst htr
  simp [NodeStream.cancel_outgoing, hdr, pendingCount, countDestroys,
    count_open_map_destroy, count_destroy_map]

theorem ack_step_counts [DecidableEq H] (ns : NodeStream σ H Sub Err U)
    (s : σ) (x : H) :
    countOpens (ns.is_remote_acknowledged s).2.2.2 x + pendingCount ns x
      = countDestroys (ns.is_remote_acknowledged s).2.2.2 x
        + pendingCount (ns.is_remote_acknowledged s).2.1 x := by
  simp [NodeStream.is_remote_acknowledged, countOpens, countDestroys,
    List.count_cons]

theorem run_invariant [DecidableEq H] :
    ∀ (ops : List (Op U)) (ns : NodeStream σ H Sub Err U) (s : σ) (x : H),
      countOpens (NodeStream.run ops ns s).2.2 x + pendingCount ns x
        = countDestroys (NodeStream.run ops ns s).2.2 x
          + pendingCount (NodeStream.run ops ns s).1 x := by
  intro ops
  induction ops with
  | nil =>
    intro ns s x
    simp [NodeStream.run, countOpens, countDestroys]
  | cons op rest ih =>
    intro ns s x
    cases op with
    | open_sub u =>
      rcases hstep : ns.open_substream s u with ⟨ns₁, s₁, tr₁⟩
      have hop := open_step_counts ns s u x
      rw [hstep] at hop
      simp only at hop
      rcases hrun : NodeStream.run rest ns₁ s₁ with ⟨ns₂, s₂, tr₂⟩
      have hr := ih ns₁ s₁ x
      rw [hrun] at hr
      simp only at hr
      simp [NodeStream.run, hstep, hrun, countOpens, countDestroys,
        List.count_append]
      simp only [countOpens, countDestroys] at hop hr
      omega
    | poll_step =>
      rcases hstep : ns.poll s with ⟨r, ns₁, s₁, tr₁⟩
      have hop := poll_step_counts ns s x
      rw [hstep] at hop
      simp only at hop
      rcases hrun : NodeStream.run rest ns₁ s₁ with ⟨ns₂, s₂, tr₂⟩
      have hr := ih ns₁ s₁ x
      rw [hrun] at hr
      simp only at hr
      simp [NodeStream.run, hstep, hrun, countOpens, countDestroys,
        List.count_append]
      simp only [countOpens, countDestroys] at hop hr
      omega
    | cancel =>
      rcases hstep : ns.cancel_outgoing s with ⟨out, ns₁, s₁, tr₁⟩
      have hop := cancel_step_counts ns s x
      rw [hstep] at hop
      simp only at hop
      rcases hrun : NodeStream.run rest ns₁ s₁ with ⟨ns₂, s₂, tr₂⟩
      have hr := ih ns₁ s₁ x
      rw [hrun] at hr
      simp only at hr
      simp [NodeStream.run, hstep, hrun, countOpens, countDestroys,
        List.count_append]
      simp only [countOpens, countDestroys] at hop hr
      omega
    | remote_ack =>
      rcases hstep : ns.is_remote_acknowledged s with ⟨b, ns₁, s₁, tr₁⟩
      have hop := ack_step_counts ns s x
      rw [hstep] at hop
      simp only at hop
      rcases hrun : NodeStream.run rest ns₁ s₁ with ⟨ns₂, s₂, tr₂⟩
      have hr := ih ns₁ s₁ x
      rw [hrun] at hr
      simp only at hr
      simp [NodeStream.run, hstep, hrun, countOpens, countDestroys,
        List.count_append]
      simp only [countOpens, countDestroys] at hop hr
      omega

/-- C9: `is_remote_acknowledged` is pure delegation to the muxer at the moment
of the call: it returns exactly the muxer's value, adds no caching, and leaves
the node stream (in particular the pending outbound set) and the muxer state
unchanged, making no other muxer call. -/
theorem claim_C9 (ns : NodeStream σ H Sub Err U) (s : σ) :
    ns.is_remote_acknowledged s
      = (ns.muxer.is_remote_acknowledged s, ns, s, [MuxCall.is_remote_ack]) :=
  rfl

/-- C8: concrete scenario — open outbound attempts `"a"` then `"b"` with no
inbound ready and the muxer resolving `"b"` first: the first poll returns the
outbound event for `"b"`, and a following `cancel_outgoing` returns exactly
`["a"]` and leaves the pending set empty. -/
theorem claim_C8 :
    let ns0 : NodeStream DemoState Nat Nat Nat String :=
      NodeStream.new demoMuxer
    let st : DemoState := ⟨0, [], none, [(1, 101)], []⟩
    let o1 := ns0.open_substream st "a"
    let o2 := o1.1.open_substream o1.2.1 "b"
    let p := o2.1.poll o2.2.1
    let c := p.2.1.cancel_outgoing p.2.2.1
    p.1 = PollResult.ready_ok
        (NodeEvent.outbound_substream "b" (substream_from_ref 101)) ∧
    c.1 = ["a"] ∧
    c.2.1.outbound_substreams = [] := by
  exact ⟨rfl, rfl, rfl⟩

/-- C1: when the muxer's `poll_inbound` returns a ready substream, `poll`
returns the inbound event immediately — the node stream is unchanged and the
only muxer call made is `poll_inbound` (no outbound attempt is polled).
Consequently, with one inbound arrival and one outbound completion
simultaneously ready, the first poll yields the inbound event and the second
poll yields the outbound event. -/
theorem claim_C1 :
    (∀ (ns : NodeStream σ H Sub Err U) (s : σ) (sub : Sub) (s₁ : σ),
        ns.muxer.poll_inbound s = (PollResult.ready_ok sub, s₁) →
        ns.poll s
          = (PollResult.ready_ok
               (NodeEvent.inbound_substream (substream_from_ref sub)),
             ns, s₁, [MuxCall.poll_inbound])) ∧
    (let ns0 : NodeStream DemoState Nat Nat Nat String :=
       NodeStream.new demoMuxer
     let st : DemoState := ⟨0, [50], none, [(0, 100)], []⟩
     let o1 := ns0.open_substream st "a"
     let p1 := o1.1.poll o1.2.1
     let p2 := p1.2.1.poll p1.2.2.1
     p1.1 = PollResult.ready_ok
         (NodeEvent.inbound_substream (substream_from_ref 50)) ∧
     p2.1 = PollResult.ready_ok
         (NodeEvent.outbound_substream "a" (substream_from_ref 100))) := by
  refine ⟨?_, rfl, rfl⟩
  intro ns s sub s₁ hin
  exact poll_eq_inbound_ready ns s sub s₁ hin

/-- Witness for C1: the inbound-priority branch evaluated on the concrete
demo muxer with one ready inbound substream. -/
theorem claim_C1_witness :
    (NodeStream.new demoMuxer : NodeStream DemoState Nat Nat Nat String).poll
        ⟨0, [50], none, [], []⟩
      = (PollResult.ready_ok
           (NodeEvent.inbound_substream (substream_from_ref 50)),
         NodeStream.new demoMuxer, ⟨0, [], none, [], []⟩,
         [MuxCall.poll_inbound]) :=
  claim_C1.1 (NodeStream.new demoMuxer) ⟨0, [50], none, [], []⟩ 50
    ⟨0, [], none, [], []⟩ rfl

/-- C2: when no inbound substream is ready and the outbound scan resolves an
attempt successfully, `poll` returns the outbound event carrying exactly the
user data stored with that attempt; the attempt's raw handle is destroyed
exactly once (the trace ends with its poll and destroy, preceded only by
polls of still-pending attempts), its entry is removed from the pending set
(the old pending set is a permutation of the entry plus the new one), no
further attempts are scanned after the success, and only one event is
produced. -/
theorem claim_C2 (ns : NodeStream σ H Sub Err U) (s s₁ : σ) (u : U)
    (sub : Sub) (l' : List (U × H)) (s₂ : σ) (tr : List (MuxCall H))
    (hin : ns.muxer.poll_inbound s = (PollResult.pending, s₁))
    (hloop : NodeStream.poll_outbound_loop ns.muxer s₁ ns.outbound_substreams
        ns.outbound_substreams.length
      = (NodeStream.LoopOutcome.success u sub, l', s₂, tr)) :
    ns.poll s
      = (PollResult.ready_ok
           (NodeEvent.outbound_substream u (substream_from_ref sub)),
         { ns with outbound_substreams := l' }, s₂,
         MuxCall.poll_inbound :: tr) ∧
    ∃ h0 tr₀,
      (u, h0) ∈ ns.outbound_substreams ∧
      ns.outbound_substreams.Perm ((u, h0) :: l') ∧
      tr = tr₀ ++ [MuxCall.poll_outbound h0, MuxCall.destroy_outbound h0] ∧
      onlyPolls tr₀ :=
  ⟨poll_eq_loop_success ns s s₁ u sub l' s₂ tr hin hloop,
   loop_success ns.muxer ns.outbound_substreams.length s₁
     ns.outbound_substreams u sub l' s₂ tr hloop⟩

/-- Witness for C2: the demo muxer resolving the single pending attempt
`("a", 0)` to substream `100`. -/
theorem claim_C2_witness :
    ({ muxer := demoMuxer, outbound_substreams := [("a", 0)] } :
        NodeStream DemoState Nat Nat Nat String).poll
        ⟨1, [], none, [(0, 100)], []⟩
      = (PollResult.ready_ok
           (NodeEvent.outbound_substream "a" (substream_from_ref 100)),
         { muxer := demoMuxer, outbound_substreams := [] },
         ⟨1, [], none, [(0, 100)], []⟩,
         [MuxCall.poll_inbound, MuxCall.poll_outbound 0,
          MuxCall.destroy_outbound 0]) :=
  (claim_C2 { muxer := demoMuxer, outbound_substreams := [("a", 0)] }
      ⟨1, [], none, [(0, 100)], []⟩ ⟨1, [], none, [(0, 100)], []⟩ "a" 100 []
      ⟨1, [], none, [(0, 100)], []⟩
      [MuxCall.poll_outbound 0, MuxCall.destroy_outbound 0] rfl rfl).1

/-- C3: errors are terminal for the failing operation only.  If `poll_inbound`
fails, `poll` propagates the error with the node stream (hence the pending
outbound set) completely unchanged and no `destroy_outbound` call.  If, with
no inbound ready, the outbound scan hits a failing attempt, `poll` propagates
the error, that attempt alone is destroyed (exactly once) and removed, and
every other pending attempt remains in the pending set. -/
theorem claim_C3 (ns : NodeStream σ H Sub Err U) (s : σ) :
    (∀ (e : Err) (s₁ : σ),
        ns.muxer.poll_inbound s = (PollResult.ready_err e, s₁) →
        ns.poll s = (PollResult.ready_err e, ns, s₁, [MuxCall.poll_inbound])) ∧
    (∀ (s₁ : σ) (e : Err) (l' : List (U × H)) (s₂ : σ)
        (tr : List (MuxCall H)),
        ns.muxer.poll_inbound s = (PollResult.pending, s₁) →
        NodeStream.poll_outbound_loop ns.muxer s₁ ns.outbound_substreams
            ns.outbound_substreams.length
          = (NodeStream.LoopOutcome.failure e, l', s₂, tr) →
        ns.poll s
          = (PollResult.ready_err e, { ns with outbound_substreams := l' },
             s₂, MuxCall.poll_inbound :: tr) ∧
        ∃ u h0 tr₀,
          (u, h0) ∈ ns.outbound_substreams ∧
          ns.outbound_substreams.Perm ((u, h0) :: l') ∧
          tr = tr₀ ++ [MuxCall.poll_outbound h0, MuxCall.destroy_outbound h0] ∧
          onlyPolls tr₀) := by
  refine ⟨?_, ?_⟩
  · intro e s₁ hin
    exact poll_eq_inbound_err ns s e s₁ hin
  · intro s₁ e l' s₂ tr hin hloop
    exact ⟨poll_eq_loop_failure ns s s₁ e l' s₂ tr hin hloop,
      loop_failure ns.muxer ns.outbound_substreams.length s₁
        ns.outbound_substreams e l' s₂ tr hloop⟩

/-- Witness for C3: both error paths on the demo muxer — an inbound error
with a pending attempt left untouched, and an outbound attempt failing. -/
theorem claim_C3_witness :
    (NodeStream.new demoMuxer : NodeStream DemoState Nat Nat Nat String).poll
        ⟨0, [], some 7, [], []⟩
      = (PollResult.ready_err 7, NodeStream.new demoMuxer,
         ⟨0, [], some 7, [], []⟩, [MuxCall.poll_inbound]) ∧
    ({ muxer := demoMuxer, outbound_substreams := [("a", 0)] } :
        NodeStream DemoState Nat Nat Nat String).poll
        ⟨1, [], none, [], [(0, 9)]⟩
      = (PollResult.ready_err 9,
         { muxer := demoMuxer, outbound_substreams := [] },
         ⟨1, [], none, [], [(0, 9)]⟩,
         [MuxCall.poll_inbound, MuxCall.poll_outbound 0,
          MuxCall.destroy_outbound 0]) :=
  ⟨(claim_C3 (NodeStream.new demoMuxer) ⟨0, [], some 7, [], []⟩).1 7
      ⟨0, [], some 7, [], []⟩ rfl,
   ((claim_C3 { muxer := demoMuxer, outbound_substreams := [("a", 0)] }
        ⟨1, [], none, [], [(0, 9)]⟩).2 ⟨1, [], none, [], [(0, 9)]⟩ 9 []
      ⟨1, [], none, [], [(0, 9)]⟩
      [MuxCall.poll_outbound 0, MuxCall.destroy_outbound 0] rfl rfl).1⟩

/-- C4: `cancel_outgoing` on a stream with `N` pending attempts removes all
entries, calls `destroy_outbound` exactly once per entry (the trace is
exactly one destroy per entry, in order), and returns all `N` user-data
values; an immediately repeated call returns the empty list and makes no
muxer call at all. -/
theorem claim_C4 (M : StreamMuxer σ H Sub Err) (l : List (U × H)) (s : σ) :
    let ns : NodeStream σ H Sub Err U :=
      { muxer := M, outbound_substreams := l }
    (ns.cancel_outgoing s).1 = l.map Prod.fst ∧
    (ns.cancel_outgoing s).2.1.outbound_substreams = [] ∧
    (ns.cancel_outgoing s).2.2.2
      = l.map (fun p => MuxCall.destroy_outbound p.2) ∧
    ((ns.cancel_outgoing s).2.1.cancel_outgoing (ns.cancel_outgoing s).2.2.1).1
      = [] ∧
    ((ns.cancel_outgoing s).2.1.cancel_outgoing
        (ns.cancel_outgoing s).2.2.1).2.2.2
      = [] := by
  intro ns
  rcases hdr : NodeStream.drain_destroy M s l with ⟨out, s', tr⟩
  have h1 := drain_destroy_fst M l s
  have h2 := drain_destroy_trace M l s
  rw [hdr] at h1 h2
  simp only at h1 h2
  subst h1
  subst h2
  simp [NodeStream.cancel_outgoing, NodeStream.drain_destroy, hdr, ns]

/-- C5: `close` on a stream with `K` pending attempts destroys each raw
attempt (one destroy per entry in the trace) and returns the `K` abandoned
user-data values together with a `Close` holding the same muxer; and
`Close::poll` is exactly the muxer's `close`: pending, success, and error
pass straight through with no other bookkeeping. -/
theorem claim_C5 (M : StreamMuxer σ H Sub Err) (l : List (U × H)) (s : σ) :
    let ns : NodeStream σ H Sub Err U :=
      { muxer := M, outbound_substreams := l }
    (ns.close s).2.1 = l.map Prod.fst ∧
    (ns.close s).2.2.2 = l.map (fun p => MuxCall.destroy_outbound p.2) ∧
    (ns.close s).1.muxer = M ∧
    (∀ (c : Close σ H Sub Err) (s₂ : σ), c.poll s₂ = c.muxer.close s₂) := by
  intro ns
  rcases hdr : NodeStream.drain_destroy M s l with ⟨out, s', tr⟩
  have h1 := drain_destroy_fst M l s
  have h2 := drain_destroy_trace M l s
  rw [hdr] at h1 h2
  simp only at h1 h2
  subst h1
  subst h2
  refine ⟨?_, ?_, ?_, ?_⟩
  · simp [NodeStream.close, NodeStream.cancel_outgoing, hdr, ns]
  · simp [NodeStream.close, NodeStream.cancel_outgoing, hdr, ns]
  · simp [NodeStream.close, NodeStream.cancel_outgoing, hdr, ns]
  · intro c s₂
    rcases hc : c.muxer.close s₂ with ⟨r, s₃⟩
    cases r with
    | ready_ok a => simp [Close.poll, hc]
    | ready_err e => simp [Close.poll, hc]
    | pending => simp [Close.poll, hc]

/-- C6: dropping a node stream with `K` pending attempts makes exactly `K`
`destroy_outbound` calls — one per pending attempt, in order — and nothing
else: no `close` call and no other muxer operation appears in the trace. -/
theorem claim_C6 [DecidableEq H] (M : StreamMuxer σ H Sub Err)
    (l : List (U × H)) (s : σ) :
    let ns : NodeStream σ H Sub Err U :=
      { muxer := M, outbound_substreams := l }
    (ns.drop_stream s).2 = l.map (fun p => MuxCall.destroy_outbound p.2) ∧
    (ns.drop_stream s).2.length = l.length ∧
    (ns.drop_stream s).2.count MuxCall.close_muxer = 0 ∧
    ∀ x, countDestroys (ns.drop_stream s).2 x = (l.map Prod.snd).count x := by
  intro ns
  rcases hdr : NodeStream.drain_destroy M s l with ⟨out, s', tr⟩
  have h2 := drain_destroy_trace M l s
  rw [hdr] at h2
  simp only at h2
  subst h2
  have htr : (ns.drop_stream s).2 = l.map fun p => MuxCall.destroy_outbound p.2 := by
    simp [NodeStream.drop_stream, hdr, ns]
  refine ⟨htr, by rw [htr]; simp, ?_, ?_⟩
  · rw [htr, List.count_eq_zero]
    intro hc
    simp at hc
  · intro x
    rw [htr]
    exact count_destroy_map l x

/-- C7: over any sequence of operations on a node stream created from a fresh
muxer, and under either way for the stream to cease to exist (drop, or
close), the complete muxer-call trace contains exactly as many
`destroy_outbound` calls on each handle as `open_outbound` calls that minted
it — no pending attempt is silently dropped and none is destroyed twice. -/
theorem claim_C7 [DecidableEq H] (M : StreamMuxer σ H Sub Err)
    (ops : List (Op U)) (s : σ) (x : H) :
    countOpens ((NodeStream.run ops (NodeStream.new M) s).2.2
        ++ ((NodeStream.run ops (NodeStream.new M) s).1.drop_stream
              (NodeStream.run ops (NodeStream.new M) s).2.1).2) x
      = countDestroys ((NodeStream.run ops (NodeStream.new M) s).2.2
        ++ ((NodeStream.run ops (NodeStream.new M) s).1.drop_stream
              (NodeStream.run ops (NodeStream.new M) s).2.1).2) x ∧
    countOpens ((NodeStream.run ops (NodeStream.new M) s).2.2
        ++ ((NodeStream.run ops (NodeStream.new M) s).1.close
              (NodeStream.run ops (NodeStream.new M) s).2.1).2.2.2) x
      = countDestroys ((NodeStream.run ops (NodeStream.new M) s).2.2
        ++ ((NodeStream.run ops (NodeStream.new M) s).1.close
              (NodeStream.run ops (NodeStream.new M) s).2.1).2.2.2) x := by
  have hinv := run_invariant ops (NodeStream.new (U := U) M) s x
  rcases hrun : NodeStream.run ops (NodeStream.new (U := U) M) s
    with ⟨ns₁, s₁, tr₁⟩
  rw [hrun] at hinv
  simp only at hinv ⊢
  simp only [pendingCount, NodeStream.new, List.map_nil, List.count_nil] at hinv
  rcases hdr : NodeStream.drain_destroy ns₁.muxer s₁ ns₁.outbound_substreams
    with ⟨o2, s2, tr2⟩
  have h2 := drain_destroy_trace ns₁.muxer ns₁.outbound_substreams s₁
  rw [hdr] at h2
  simp only at h2
  subst h2
  have htrd : (ns₁.drop_stream s₁).2
      = ns₁.outbound_substreams.map fun p => MuxCall.destroy_outbound p.2 := by
    simp [NodeStream.drop_stream, hdr]
  have htrc : (ns₁.close s₁).2.2.2
      = ns₁.outbound_substreams.map fun p => MuxCall.destroy_outbound p.2 := by
    simp [NodeStream.close, NodeStream.cancel_outgoing, hdr]
  rw [htrd, htrc]
  have hcd := count_destroy_map ns₁.outbound_substreams x
  have hco := count_open_map_destroy ns₁.outbound_substreams x
  simp only [countOpens, countDestroys, pendingCount, List.count_append]
    at hinv hcd hco ⊢
  constructor
  · omega
  · omega

theorem open_all_map_fst :
    ∀ (us : List U) (ns : NodeStream σ H Sub Err U) (s : σ),
      ((NodeStream.open_all ns s us).1).outbound_substreams.map Prod.fst
        = ns.outbound_substreams.map Prod.fst ++ us := by
  intro us
  induction us with
  | nil =>
    intro ns s
    simp [NodeStream.open_all]
  | cons u rest ih =>
    intro ns s
    rcases hop : ns.muxer.open_outbound s with ⟨raw, s'⟩
    simp [NodeStream.open_all, NodeStream.open_substream, hop, ih]

/-- C10 (implicit): on a stream whose pending set comes from successive
`open_substream` calls with no intervening poll, `cancel_outgoing` returns
the user-data values in insertion order — the exact order of the
`open_substream` calls, not reverse-of-insertion — and `close` returns the
same insertion-ordered list. -/
theorem claim_C10 (M : StreamMuxer σ H Sub Err) (us : List U) (s : σ) :
    ((NodeStream.open_all (NodeStream.new M) s us).1.cancel_outgoing
        (NodeStream.open_all (NodeStream.new M) s us).2).1 = us ∧
    ((NodeStream.open_all (NodeStream.new M) s us).1.close
        (NodeStream.open_all (NodeStream.new M) s us).2).2.1 = us := by
  have hm := open_all_map_fst us (NodeStream.new (σ := σ) M) s
  rcases hoa : NodeStream.open_all (NodeStream.new (σ := σ) M) s us
    with ⟨ns₁, s₁⟩
  rw [hoa] at hm
  simp only at hm ⊢
  simp only [NodeStream.new, List.map_nil, List.nil_append] at hm
  rcases hdr : NodeStream.drain_destroy ns₁.muxer s₁ ns₁.outbound_substreams
    with ⟨o, s2, tr⟩
  have h1 := drain_destroy_fst ns₁.muxer ns₁.outbound_substreams s₁
  rw [hdr] at h1
  simp only at h1
  constructor
  · simp [NodeStream.cancel_outgoing, hdr, h1, hm]
  · simp [NodeStream.close, NodeStream.cancel_outgoing, hdr, h1, hm]
